import Mathlib

/-!
# Verification of the company research agent core

Shallow embedding of the core logic of
`src/company_research_agent/agent.py`:

* `extract_years` — regex-based extraction of plausible calendar years
  (pattern `\b(19\d{2}|20\d{2})\b` via `re.findall`, then `sorted({...})`);
* `update_markdown_section` — the markdown section editor built on
  `re.search` with pattern `(##\s+name\s*\n)(.*?)(?=\n##\s+|\Z)` (DOTALL);
* `research_company` — the aggregation routine combining two summary
  sources, the conflict flag, the `no_external_data` flag and the
  synthetic-fallback lookup table;
* the two fail-soft HTTP fetch wrappers, modelled over an explicit
  outcome type (transport error / status / parsed JSON-like body).

Text is modelled as `List Char` (Python `str` is a sequence of unicode
code points, as is Lean's `String.data`).  The character classes `\d`
and `\w` of the Python pattern are modelled on their ASCII fragment;
`\s` and `str.strip()` use the full Python unicode whitespace set.
-/

/-- Python's whitespace class: the characters for which `str.isspace()`
holds and which the `re` classes `\s` match (`Py_UNICODE_ISSPACE`). -/
def isPySpace (c : Char) : Bool :=
  c == ' ' || c == '\t' || c == '\n' || c == '\x0b' || c == '\x0c' || c == '\r' ||
  c == '\x1c' || c == '\x1d' || c == '\x1e' || c == '\x1f' || c == '\x85' || c == '\xa0' ||
  c == '\u1680' || ('\u2000' ≤ c && c ≤ '\u200a') || c == '\u2028' || c == '\u2029' ||
  c == '\u202f' || c == '\u205f' || c == '\u3000'

/-- Python `str.strip()` with no arguments: drop leading and trailing
whitespace. -/
def pyStrip (l : List Char) : List Char :=
  ((l.dropWhile isPySpace).reverse.dropWhile isPySpace).reverse

/-- `str.strip()` at the `String` level. -/
def pyStripS (s : String) : String :=
  String.mk (pyStrip s.data)

/-- Python `str.lower()`, restricted to its ASCII action (`A`-`Z` map to
`a`-`z`); the fallback table keys are ASCII. -/
def pyLowerChar (c : Char) : Char :=
  if 'A' ≤ c ∧ c ≤ 'Z' then Char.ofNat (c.toNat + 32) else c

/-- `str.lower()` on a whole string. -/
def pyLowerS (s : String) : String :=
  String.mk (s.data.map pyLowerChar)

/-- The regex class `\d` (ASCII fragment): a decimal digit. -/
def isDig (c : Char) : Bool :=
  c == '0' || c == '1' || c == '2' || c == '3' || c == '4' ||
  c == '5' || c == '6' || c == '7' || c == '8' || c == '9'

/-- An ASCII letter. -/
def isAsciiAlpha (c : Char) : Bool :=
  ('A' ≤ c && c ≤ 'Z') || ('a' ≤ c && c ≤ 'z')

/-- The regex class `\w` (ASCII fragment): letter, digit or underscore.
Word boundaries `\b` are transitions between `\w` and non-`\w`. -/
def isWordChar (c : Char) : Bool :=
  isAsciiAlpha c || isDig c || c == '_'

/-- Numeric value of a decimal digit character. -/
def charVal (c : Char) : Nat := c.toNat - 48

/-- The alternation `19|20` opening the year pattern. -/
def pairOk (c1 c2 : Char) : Bool :=
  (c1 == '1' && c2 == '9') || (c1 == '2' && c2 == '0')

/-- Left word boundary `\b` before a digit: satisfied at the start of the
text or after a non-word character. -/
def prevOk : Option Char → Bool
  | Option.none => true
  | Option.some c => !isWordChar c

/-- Right word boundary `\b` after a digit: satisfied at the end of the
text or before a non-word character. -/
def nextOk : List Char → Bool
  | [] => true
  | c :: _ => !isWordChar c

/-- Value of the four-digit year starting the match. -/
def yearVal (c1 c2 c3 c4 : Char) : Nat :=
  1000 * charVal c1 + 100 * charVal c2 + 10 * charVal c3 + charVal c4

/-- Whether `\b(19\d{2}|20\d{2})\b` matches at the current scan position,
given the previous character (`prev`) and the four candidate characters
followed by the remaining text. -/
def yearGuard (prev : Option Char) (c1 c2 c3 c4 : Char) (rest : List Char) : Bool :=
  prevOk prev && pairOk c1 c2 && isDig c3 && isDig c4 && nextOk rest

/-- `re.findall(r"\b(19\d{2}|20\d{2})\b", text)`: the leftmost,
non-overlapping scan of the text; after a match the scan resumes past
its four characters. -/
def scanYears (prev : Option Char) : List Char → List Nat
  | [] => []
  | c1 :: rest1 =>
    match rest1 with
    | c2 :: c3 :: c4 :: rest =>
      if yearGuard prev c1 c2 c3 c4 rest then
        yearVal c1 c2 c3 c4 :: scanYears (some c4) rest
      else
        scanYears (some c1) (c2 :: c3 :: c4 :: rest)
    | _ => []

/-- Specification-side reading of the year pattern: `okAt p prev l` is
`some y` when a whole-token year (four digits opening with `19` or `20`,
delimited by word boundaries) of value `y` occurs at position `p` of `l`,
where `prev` is the character preceding `l` (if any). -/
def okAt : Nat → Option Char → List Char → Option Nat
  | 0, prev, l =>
    match l with
    | c1 :: c2 :: c3 :: c4 :: rest =>
      if yearGuard prev c1 c2 c3 c4 rest then some (yearVal c1 c2 c3 c4) else none
    | _ => none
  | _ + 1, _, [] => none
  | p + 1, _, c :: cs => okAt p (some c) cs

/-- Insert a value into a strictly sorted list, keeping it strictly
sorted (duplicates are dropped). -/
def insertYear (y : Nat) : List Nat → List Nat
  | [] => [y]
  | x :: xs =>
    if y < x then y :: x :: xs
    else if y = x then x :: xs
    else x :: insertYear y xs

/-- Python `sorted({...})` on a list of years: the distinct values in
ascending order. -/
def sortDedup (l : List Nat) : List Nat :=
  l.foldr insertYear []

/-- `extract_years` from the source: `re.findall` over `text or ""`
(`None` behaves as the empty string), then `sorted({int(y) for y in years})`. -/
def extract_years (text : Option String) : List Nat :=
  sortDedup (scanYears none (text.getD "").data)

/-! ## The markdown section editor

`update_markdown_section` searches the document with the Python pattern
`(##\s+ESC(section_name)\s*\n)(.*?)(?=\n##\s+|\Z)` under `re.DOTALL`
(`re.escape` makes the section name a literal).  Group 2 (`.*?`) always
succeeds — it is lazy and its lookahead `\n##\s+|\Z` can always be
satisfied at the end of the text — so a match at a position is decided
by group 1 alone, with the usual greedy backtracking of `\s+` and `\s*`.
The functions below embed exactly that semantics. -/

/-- Length of the maximal leading run of `\s` characters. -/
def wsRun : List Char → Nat
  | [] => 0
  | c :: cs => if isPySpace c then wsRun cs + 1 else 0

/-- Length consumed by `\s*\n` with greedy backtracking: the greedy
`\s*` eats as much whitespace as possible and backs off until the next
character is a newline, i.e. it consumes up to and including the last
newline of the leading whitespace run (`none` when that run has no
newline). -/
def wsStarNl : List Char → Option Nat
  | [] => none
  | c :: cs =>
    if isPySpace c then
      match wsStarNl cs with
      | some n => some (n + 1)
      | none => if c == '\n' then some 1 else none
    else none

/-- Backtracking loop for `\s+ name \s*\n` after the literal `##`: try
the greedy widths `k, k-1, ..., 1` for `\s+` (all within the leading
whitespace run) and return the total consumed length for the first one
whose continuation (`name` literally, then `\s*\n`) matches. -/
def g1TryK (name rest : List Char) : Nat → Option Nat
  | 0 => none
  | k + 1 =>
    match
      (if List.isPrefixOf name (rest.drop (k + 1)) then
        (wsStarNl ((rest.drop (k + 1)).drop name.length)).map
          (fun m => (k + 1) + name.length + m)
      else none) with
    | some n => some n
    | none => g1TryK name rest k

/-- Whether group 1, `##\s+ESC(name)\s*\n`, matches at the start of `l`;
returns the length it consumes. -/
def matchGroup1 (name l : List Char) : Option Nat :=
  match l with
  | a :: b :: rest =>
    if a == '#' && b == '#' then
      (g1TryK name rest (wsRun rest)).map (fun n => n + 2)
    else none
  | _ => none

/-- Whether the lookahead `\n##\s+` holds at the start of `l` (its first
four characters are newline, two hashes, then a whitespace character
starting the `\s+`). -/
def lookaheadHere (l : List Char) : Bool :=
  (l.get? 0 == some '\n') && (l.get? 1 == some '#') && (l.get? 2 == some '#') &&
    (match l.get? 3 with
     | some d => isPySpace d
     | Option.none => false)

/-- Length matched by the lazy group 2, `(.*?)(?=\n##\s+|\Z)` under
DOTALL: the least position at which the lookahead holds, or the whole
remaining text (`\Z`). -/
def g2Len : List Char → Nat
  | [] => 0
  | l@(_ :: cs) => if lookaheadHere l then 0 else g2Len cs + 1

/-- `re.search` of group 1: the least position of `l` at which
`matchGroup1` succeeds, together with the consumed length. -/
def findG1 (name : List Char) : List Char → Nat → Option (Nat × Nat)
  | [], _ => none
  | l@(_ :: cs), p =>
    match matchGroup1 name l with
    | some g1 => some (p, g1)
    | none => findG1 name cs (p + 1)

/-- `re.search(pattern, existing_plan, flags=re.DOTALL)`: position of the
match, length of group 1 and length of group 2. -/
def findMatch (doc name : List Char) : Option (Nat × Nat × Nat) :=
  match findG1 name doc 0 with
  | some (p, g1) => some (p, g1, g2Len (doc.drop (p + g1)))
  | none => none

/-- The f-string `f"## {section_name}\n"`: a level-2 heading line. -/
def headingLine (name : List Char) : List Char :=
  '#' :: '#' :: ' ' :: name ++ ['\n']

/-- `update_markdown_section` from the source, on character lists:

* empty document: return `f"## {section_name}\n{new_section_body.strip()}\n"`;
* match found: `existing_plan[:start] + "\n" + new_section_body.strip()
  + "\n" + existing_plan[end:]` where `[start, end)` is the span of
  group 2;
* no match: append a newline if the document does not end with one,
  then `f"\n## {section_name}\n{new_section_body.strip()}\n"`. -/
def updateL (doc name body : List Char) : List Char :=
  if doc = [] then headingLine name ++ (pyStrip body ++ ['\n'])
  else
    match findMatch doc name with
    | some (p, g1, g2) =>
      doc.take (p + g1) ++ '\n' :: (pyStrip body ++ '\n' :: doc.drop (p + g1 + g2))
    | none =>
      (if doc.getLast? = some '\n' then doc else doc ++ ['\n']) ++
        '\n' :: (headingLine name ++ (pyStrip body ++ ['\n']))

/-- `update_markdown_section` at the `String` level. -/
def update_markdown_section (existing_plan section_name new_section_body : String) : String :=
  String.mk (updateL existing_plan.data section_name.data new_section_body.data)

/-! ## The research aggregator -/

/-- The dictionary returned by `research_company`. -/
structure ResearchResult where
  company : String
  wikipedia_summary : String
  duckduckgo_summary : String
  extracted_years : List Nat
  has_conflict : Bool
  no_external_data : Bool
  deriving DecidableEq

/-- The `synthetic_conflicts` table of the source, in insertion order. -/
def synthetic_conflicts : List (String × List Nat) :=
  [("IBM", [1896, 1911, 1924]),
   ("Sony", [1945, 1946, 1958]),
   ("Nokia", [1865, 1871, 1876]),
   ("Panasonic", [1918, 1927, 1935]),
   ("Accenture", [1950, 1989, 2001])]

/-- `research_company` from the source, as a function of the two fetched
summaries (the network fetches are modelled separately):

* `years_list` is `sorted(set(extract_years(wiki)) | set(extract_years(ddg)))`;
* `has_conflict` starts as `len(years_list) > 1`;
* `no_external` is `wiki.strip() == "" and ddg.strip() == ""`;
* when `no_external` holds, the first table key whose `lower()` equals
  the stripped, lowered company name overwrites `years_list` and forces
  `has_conflict = True`. -/
def research_company (company_name wiki ddg : String) : ResearchResult :=
  let years_list := sortDedup (extract_years (some wiki) ++ extract_years (some ddg))
  let has_conflict := decide (1 < years_list.length)
  let no_external := (pyStripS wiki == "") && (pyStripS ddg == "")
  let normalized := pyLowerS (pyStripS company_name)
  match
    (if no_external then
      synthetic_conflicts.find? (fun kv => pyLowerS kv.fst == normalized)
    else none) with
  | some kv =>
    { company := company_name, wikipedia_summary := wiki, duckduckgo_summary := ddg,
      extracted_years := kv.snd, has_conflict := true, no_external_data := no_external }
  | none =>
    { company := company_name, wikipedia_summary := wiki, duckduckgo_summary := ddg,
      extracted_years := years_list, has_conflict := has_conflict,
      no_external_data := no_external }

/-! ## The fail-soft fetch wrappers

The two HTTP helpers are modelled over an explicit outcome of the
`requests.get` call: either the call raises (transport error, timeout),
or it yields a response with a status code and a body; `resp.json()`
either parses to a JSON-like value or raises (body `none`).  Code that
can raise a Python exception is written in `Except`; the `try/except`
of the source folds any exception to the empty string. -/

/-- A parsed JSON-like Python value (`resp.json()` result). -/
inductive PyVal where
  | pyNone : PyVal
  | pyBool : Bool → PyVal
  | pyNum : Int → PyVal
  | pyStr : String → PyVal
  | pyList : List PyVal → PyVal
  | pyDict : List (String × PyVal) → PyVal

/-- Python truthiness of a `PyVal`. -/
def truthy : PyVal → Bool
  | .pyNone => false
  | .pyBool b => b
  | .pyNum n => decide (n ≠ 0)
  | .pyStr s => !(s == "")
  | .pyList xs => !xs.isEmpty
  | .pyDict kvs => !kvs.isEmpty

/-- Python `x or y` on values: `x` when truthy, else `y`. -/
def pyOr (a b : PyVal) : PyVal := if truthy a then a else b

/-- `dict.get(key, default)` on a JSON object. -/
def dictLookup (kvs : List (String × PyVal)) (key : String) (default : PyVal) : PyVal :=
  ((kvs.find? (fun kv => kv.fst == key)).map Prod.snd).getD default

/-- Python exceptions that the modelled code can raise. -/
inductive PyErr where
  | requestError : PyErr
  | jsonDecodeError : PyErr
  | attributeError : PyErr
  | typeError : PyErr

/-- Outcome of a `requests.get` call: the call raises, or it returns a
response with a status code whose body parses to `some` JSON-like value
(or fails to parse: `none`). -/
inductive HttpOutcome where
  | exn : HttpOutcome
  | resp : Nat → Option PyVal → HttpOutcome

/-- The `try`-body of `fetch_wikipedia_summary`: on a 200 response,
`resp.json()` then `data.get("extract", "") or ""` (an `AttributeError`
when `data` is not a dict); any other status yields `""`. -/
def fetchWikiCore : HttpOutcome → Except PyErr PyVal
  | .exn => .error .requestError
  | .resp status body =>
    if status = 200 then
      match body with
      | Option.none => .error .jsonDecodeError
      | some (.pyDict kvs) => .ok (pyOr (dictLookup kvs "extract" (.pyStr "")) (.pyStr ""))
      | some _ => .error .attributeError
    else .ok (.pyStr "")

/-- `fetch_wikipedia_summary`: the `try/except Exception` wrapper folds
every raised exception to the empty string. -/
def fetch_wikipedia_summary (o : HttpOutcome) : PyVal :=
  match fetchWikiCore o with
  | .ok v => v
  | .error _ => .pyStr ""

/-- The `try`-body of `fetch_duckduckgo_summary`: on a 200 response,
return the `"Abstract"` field if truthy, else consult the first element
of `"RelatedTopics"` when that field is a non-empty list whose first
element is a dict, returning its `"Text"` field (`or ""`); else `""`. -/
def fetchDdgCore : HttpOutcome → Except PyErr PyVal
  | .exn => .error .requestError
  | .resp status body =>
    if status = 200 then
      match body with
      | Option.none => .error .jsonDecodeError
      | some (.pyDict kvs) =>
        let abstract := dictLookup kvs "Abstract" (.pyStr "")
        if truthy abstract then .ok abstract
        else
          match dictLookup kvs "RelatedTopics" (.pyList []) with
          | .pyList (first :: _) =>
            match first with
            | .pyDict kvs2 => .ok (pyOr (dictLookup kvs2 "Text" (.pyStr "")) (.pyStr ""))
            | _ => .ok (.pyStr "")
          | _ => .ok (.pyStr "")
      | some _ => .error .attributeError
    else .ok (.pyStr "")

/-- `fetch_duckduckgo_summary` with its `try/except Exception` wrapper. -/
def fetch_duckduckgo_summary (o : HttpOutcome) : PyVal :=
  match fetchDdgCore o with
  | .ok v => v
  | .error _ => .pyStr ""

/-- Using a fetched value as a Python `str` (as `research_company` does
via `.strip()` and `re.findall`): a `TypeError` unless it is a string. -/
def asStr : PyVal → Except PyErr String
  | .pyStr s => .ok s
  | _ => .error .typeError

/-- `research_company` including its two source fetches: the composition
raises whatever exception leaks out of the summaries' later use. -/
def research_companyE (company_name : String) (o1 o2 : HttpOutcome) :
    Except PyErr ResearchResult :=
  match asStr (fetch_wikipedia_summary o1) with
  | .error e => .error e
  | .ok wiki =>
    match asStr (fetch_duckduckgo_summary o2) with
    | .error e => .error e
    | .ok ddg => .ok (research_company company_name wiki ddg)

/-- A source call failed in the sense of the specification: transport
error, non-success status, or a body that is not valid JSON. -/
def sourceFailed : HttpOutcome → Bool
  | .exn => true
  | .resp _ Option.none => true
  | .resp status (some _) => !(status == 200)

/-- A value that the fetch helpers may safely return: a string, or a
falsy value (which `or ""` replaces by the empty string). -/
def strOrFalsy (v : PyVal) : Bool :=
  match v with
  | .pyStr _ => true
  | v => !truthy v

/-- The Wikipedia response is well-typed for the fetch helper: if it is
a 200 JSON object, its `"extract"` field is a string or falsy. -/
def wikiOk : HttpOutcome → Bool
  | .exn => true
  | .resp status body =>
    if status = 200 then
      match body with
      | some (.pyDict kvs) => strOrFalsy (dictLookup kvs "extract" (.pyStr ""))
      | _ => true
    else true

/-- The DuckDuckGo response is well-typed for the fetch helper: if it is
a 200 JSON object, the field the helper ends up returning (`"Abstract"`,
or the first related topic's `"Text"`) is a string or falsy. -/
def ddgOk : HttpOutcome → Bool
  | .exn => true
  | .resp status body =>
    if status = 200 then
      match body with
      | some (.pyDict kvs) =>
        let abstract := dictLookup kvs "Abstract" (.pyStr "")
        if truthy abstract then strOrFalsy abstract
        else
          match dictLookup kvs "RelatedTopics" (.pyList []) with
          | .pyList (first :: _) =>
            match first with
            | .pyDict kvs2 => strOrFalsy (dictLookup kvs2 "Text" (.pyStr ""))
            | _ => true
          | _ => true
      | _ => true
    else true

/-! ## Year extraction: the scan finds exactly the whole-token years -/

theorem charVal_le_9 (c : Char) (h : isDig c = true) : charVal c ≤ 9 := by
  simp only [isDig, Bool.or_eq_true, beq_iff_eq] at h
  rcases h with ((((((((h | h) | h) | h) | h) | h) | h) | h) | h) | h <;> subst h <;> decide

theorem isWordChar_of_isDig (c : Char) (h : isDig c = true) : isWordChar c = true := by
  simp [isWordChar, h]

theorem pairOk_cases (c1 c2 : Char) (h : pairOk c1 c2 = true) :
    (c1 = '1' ∧ c2 = '9') ∨ (c1 = '2' ∧ c2 = '0') := by
  simpa only [pairOk, Bool.or_eq_true, Bool.and_eq_true, beq_iff_eq] using h

theorem yearGuard_parts (prev : Option Char) (c1 c2 c3 c4 : Char) (rest : List Char)
    (h : yearGuard prev c1 c2 c3 c4 rest = true) :
    prevOk prev = true ∧ pairOk c1 c2 = true ∧ isDig c3 = true ∧ isDig c4 = true ∧
      nextOk rest = true := by
  simpa only [yearGuard, Bool.and_eq_true, and_assoc] using h

theorem okAt_eq_none_of_short (p : Nat) :
    ∀ (prev : Option Char) (l : List Char), l.length < 4 → okAt p prev l = none := by
  induction p with
  | zero =>
    intro prev l h
    rcases l with _ | ⟨c1, l⟩
    · rfl
    rcases l with _ | ⟨c2, l⟩
    · rfl
    rcases l with _ | ⟨c3, l⟩
    · rfl
    rcases l with _ | ⟨c4, l⟩
    · rfl
    simp at h
    omega
  | succ p ih =>
    intro prev l h
    rcases l with _ | ⟨c, cs⟩
    · rfl
    exact ih (some c) cs (by simp at h ⊢; omega)

theorem okAt_zero_full (prev : Option Char) (c1 c2 c3 c4 : Char) (rest : List Char) :
    okAt 0 prev (c1 :: c2 :: c3 :: c4 :: rest)
      = if yearGuard prev c1 c2 c3 c4 rest then some (yearVal c1 c2 c3 c4) else none := rfl

theorem okAt_succ (p : Nat) (prev : Option Char) (c : Char) (cs : List Char) :
    okAt (p + 1) prev (c :: cs) = okAt p (some c) cs := rfl

theorem scanYears_cons4 (prev : Option Char) (c1 c2 c3 c4 : Char) (rest : List Char) :
    scanYears prev (c1 :: c2 :: c3 :: c4 :: rest)
      = if yearGuard prev c1 c2 c3 c4 rest then
          yearVal c1 c2 c3 c4 :: scanYears (some c4) rest
        else scanYears (some c1) (c2 :: c3 :: c4 :: rest) := by
  simp [scanYears]

/-- The `re.findall` scan finds a year value exactly when the pattern
matches at some position. -/
theorem scan_mem (n : Nat) :
    ∀ (l : List Char), l.length ≤ n → ∀ (prev : Option Char) (y : Nat),
      y ∈ scanYears prev l ↔ ∃ p, okAt p prev l = some y := by
  induction n with
  | zero =>
    intro l h prev y
    have hl : l = [] := List.length_eq_zero.mp (Nat.le_zero.mp h)
    subst hl
    constructor
    · intro hy; simp [scanYears] at hy
    · rintro ⟨p, hp⟩
      rw [okAt_eq_none_of_short p prev [] (by simp)] at hp
      exact absurd hp (by simp)
  | succ n ih =>
    intro l h prev y
    rcases l with _ | ⟨c1, l1⟩
    · constructor
      · intro hy; simp [scanYears] at hy
      · rintro ⟨p, hp⟩
        rw [okAt_eq_none_of_short p prev [] (by simp)] at hp
        exact absurd hp (by simp)
    rcases l1 with _ | ⟨c2, l2⟩
    · constructor
      · intro hy; simp [scanYears] at hy
      · rintro ⟨p, hp⟩
        rw [okAt_eq_none_of_short p prev [c1] (by simp)] at hp
        exact absurd hp (by simp)
    rcases l2 with _ | ⟨c3, l3⟩
    · constructor
      · intro hy; simp [scanYears] at hy
      · rintro ⟨p, hp⟩
        rw [okAt_eq_none_of_short p prev [c1, c2] (by simp)] at hp
        exact absurd hp (by simp)
    rcases l3 with _ | ⟨c4, rest⟩
    · constructor
      · intro hy; simp [scanYears] at hy
      · rintro ⟨p, hp⟩
        rw [okAt_eq_none_of_short p prev [c1, c2, c3] (by simp)] at hp
        exact absurd hp (by simp)
    rw [scanYears_cons4]
    by_cases hg : yearGuard prev c1 c2 c3 c4 rest = true
    · rw [if_pos hg]
      have hrest : rest.length ≤ n := by simp at h; omega
      have hparts := yearGuard_parts prev c1 c2 c3 c4 rest hg
      have hw1 : isWordChar c1 = true ∧ isWordChar c2 = true := by
        rcases pairOk_cases c1 c2 hparts.2.1 with ⟨h1, h2⟩ | ⟨h1, h2⟩ <;>
          subst h1 <;> subst h2 <;> exact ⟨by decide, by decide⟩
      have hw3 : isWordChar c3 = true := isWordChar_of_isDig c3 hparts.2.2.1
      constructor
      · intro hy
        rcases List.mem_cons.mp hy with hy | hy
        · exact ⟨0, by rw [okAt_zero_full, if_pos hg, hy]⟩
        · obtain ⟨q, hq⟩ := (ih rest hrest (some c4) y).mp hy
          exact ⟨q + 4, hq⟩
      · rintro ⟨p, hp⟩
        rcases p with _ | p
        · rw [okAt_zero_full, if_pos hg] at hp
          exact List.mem_cons.mpr (Or.inl (Option.some.inj hp).symm)
        rcases p with _ | p
        · rw [okAt_succ] at hp
          rcases rest with _ | ⟨c5, rest'⟩
          · rw [okAt_eq_none_of_short 0 (some c1) [c2, c3, c4] (by simp)] at hp
            exact absurd hp (by simp)
          · rw [okAt_zero_full] at hp
            rw [if_neg (by simp [yearGuard, prevOk, hw1.1])] at hp
            exact absurd hp (by simp)
        rcases p with _ | p
        · rw [okAt_succ, okAt_succ] at hp
          rcases rest with _ | ⟨c5, rest'⟩
          · rw [okAt_eq_none_of_short 0 (some c2) [c3, c4] (by simp)] at hp
            exact absurd hp (by simp)
          rcases rest' with _ | ⟨c6, rest''⟩
          · rw [okAt_eq_none_of_short 0 (some c2) [c3, c4, c5] (by simp)] at hp
            exact absurd hp (by simp)
          · rw [okAt_zero_full] at hp
            rw [if_neg (by simp [yearGuard, prevOk, hw1.2])] at hp
            exact absurd hp (by simp)
        rcases p with _ | p
        · rw [okAt_succ, okAt_succ, okAt_succ] at hp
          rcases rest with _ | ⟨c5, rest'⟩
          · rw [okAt_eq_none_of_short 0 (some c3) [c4] (by simp)] at hp
            exact absurd hp (by simp)
          rcases rest' with _ | ⟨c6, rest''⟩
          · rw [okAt_eq_none_of_short 0 (some c3) [c4, c5] (by simp)] at hp
            exact absurd hp (by simp)
          rcases rest'' with _ | ⟨c7, rest'''⟩
          · rw [okAt_eq_none_of_short 0 (some c3) [c4, c5, c6] (by simp)] at hp
            exact absurd hp (by simp)
          · rw [okAt_zero_full] at hp
            rw [if_neg (by simp [yearGuard, prevOk, hw3])] at hp
            exact absurd hp (by simp)
        · have hshift : okAt (p + 4) prev (c1 :: c2 :: c3 :: c4 :: rest)
              = okAt p (some c4) rest := rfl
          rw [hshift] at hp
          exact List.mem_cons.mpr (Or.inr ((ih rest hrest (some c4) y).mpr ⟨p, hp⟩))
    · rw [if_neg hg]
      have hl1 : (c2 :: c3 :: c4 :: rest).length ≤ n := by simp at h ⊢; omega
      rw [ih (c2 :: c3 :: c4 :: rest) hl1 (some c1) y]
      constructor
      · rintro ⟨q, hq⟩
        exact ⟨q + 1, hq⟩
      · rintro ⟨p, hp⟩
        rcases p with _ | p
        · rw [okAt_zero_full, if_neg hg] at hp
          exact absurd hp (by simp)
        · exact ⟨p, hp⟩

theorem okAt_bounds (p : Nat) :
    ∀ (prev : Option Char) (l : List Char) (y : Nat),
      okAt p prev l = some y → 1900 ≤ y ∧ y ≤ 2099 := by
  induction p with
  | zero =>
    intro prev l y hp
    rcases l with _ | ⟨c1, l⟩
    · exact absurd hp (by simp [okAt])
    rcases l with _ | ⟨c2, l⟩
    · exact absurd hp (by simp [okAt])
    rcases l with _ | ⟨c3, l⟩
    · exact absurd hp (by simp [okAt])
    rcases l with _ | ⟨c4, l⟩
    · exact absurd hp (by simp [okAt])
    rw [okAt_zero_full] at hp
    by_cases hg : yearGuard prev c1 c2 c3 c4 l = true
    · rw [if_pos hg] at hp
      have hy := (Option.some.inj hp).symm
      have hparts := yearGuard_parts prev c1 c2 c3 c4 l hg
      have h3 := charVal_le_9 c3 hparts.2.2.1
      have h4 := charVal_le_9 c4 hparts.2.2.2.1
      have hv1 : charVal '1' = 1 := rfl
      have hv9 : charVal '9' = 9 := rfl
      have hv2 : charVal '2' = 2 := rfl
      have hv0 : charVal '0' = 0 := rfl
      rcases pairOk_cases c1 c2 hparts.2.1 with ⟨e1, e2⟩ | ⟨e1, e2⟩ <;>
        subst e1 <;> subst e2 <;> subst hy <;>
        simp only [yearVal, hv1, hv9, hv2, hv0] <;> omega
    · rw [if_neg hg] at hp
      exact absurd hp (by simp)
  | succ p ih =>
    intro prev l y hp
    rcases l with _ | ⟨c, cs⟩
    · exact absurd hp (by simp [okAt])
    · exact ih (some c) cs y hp

/-! ## Sortedness and membership of `sortDedup` -/

theorem mem_insertYear (a y : Nat) (l : List Nat) :
    a ∈ insertYear y l ↔ a = y ∨ a ∈ l := by
  induction l with
  | nil => simp [insertYear]
  | cons x xs ih =>
    simp only [insertYear]
    by_cases h1 : y < x
    · rw [if_pos h1]
      simp only [List.mem_cons]
    rw [if_neg h1]
    by_cases h2 : y = x
    · rw [if_pos h2]
      subst h2
      simp only [List.mem_cons]
      tauto
    · rw [if_neg h2]
      simp only [List.mem_cons, ih]
      tauto

theorem sorted_insertYear (y : Nat) (l : List Nat) (h : List.Sorted (· < ·) l) :
    List.Sorted (· < ·) (insertYear y l) := by
  induction l with
  | nil => simp [insertYear]
  | cons x xs ih =>
    rw [List.sorted_cons] at h
    obtain ⟨hx, hxs⟩ := h
    simp only [insertYear]
    by_cases h1 : y < x
    · rw [if_pos h1, List.sorted_cons]
      constructor
      · intro b hb
        rcases List.mem_cons.mp hb with hb | hb
        · omega
        · exact lt_trans h1 (hx b hb)
      · rw [List.sorted_cons]; exact ⟨hx, hxs⟩
    rw [if_neg h1]
    by_cases h2 : y = x
    · rw [if_pos h2, List.sorted_cons]; exact ⟨hx, hxs⟩
    · rw [if_neg h2, List.sorted_cons]
      constructor
      · intro b hb
        rcases (mem_insertYear b y xs).mp hb with hb | hb
        · omega
        · exact hx b hb
      · exact ih hxs

theorem sorted_sortDedup (l : List Nat) : List.Sorted (· < ·) (sortDedup l) := by
  induction l with
  | nil => simp [sortDedup]
  | cons c cs ih => exact sorted_insertYear c (sortDedup cs) ih

theorem mem_sortDedup (a : Nat) (l : List Nat) : a ∈ sortDedup l ↔ a ∈ l := by
  induction l with
  | nil => simp [sortDedup]
  | cons c cs ih =>
    show a ∈ insertYear c (sortDedup cs) ↔ _
    rw [mem_insertYear, ih]
    simp

theorem mem_extract_years (t : String) (y : Nat) :
    y ∈ extract_years (some t) ↔ ∃ p, okAt p none t.data = some y := by
  show y ∈ sortDedup (scanYears none t.data) ↔ _
  rw [mem_sortDedup]
  exact scan_mem t.data.length t.data le_rfl none y

/-! ## The aggregator: conflict flag, fallback isolation, emptiness flag -/

theorem research_company_def (company_name wiki ddg : String) :
    research_company company_name wiki ddg =
      match
        (if (pyStripS wiki == "") && (pyStripS ddg == "") then
          synthetic_conflicts.find?
            (fun kv => pyLowerS kv.fst == pyLowerS (pyStripS company_name))
        else none) with
      | some kv =>
        { company := company_name, wikipedia_summary := wiki, duckduckgo_summary := ddg,
          extracted_years := kv.snd, has_conflict := true,
          no_external_data := (pyStripS wiki == "") && (pyStripS ddg == "") }
      | none =>
        { company := company_name, wikipedia_summary := wiki, duckduckgo_summary := ddg,
          extracted_years := sortDedup (extract_years (some wiki) ++ extract_years (some ddg)),
          has_conflict :=
            decide (1 < (sortDedup (extract_years (some wiki) ++ extract_years (some ddg))).length),
          no_external_data := (pyStripS wiki == "") && (pyStripS ddg == "") } := rfl

theorem research_company_wiki (company_name wiki ddg : String) :
    (research_company company_name wiki ddg).wikipedia_summary = wiki := by
  rw [research_company_def]
  split <;> rfl

theorem research_company_ddg (company_name wiki ddg : String) :
    (research_company company_name wiki ddg).duckduckgo_summary = ddg := by
  rw [research_company_def]
  split <;> rfl

theorem research_company_no_external (company_name wiki ddg : String) :
    (research_company company_name wiki ddg).no_external_data
      = ((pyStripS wiki == "") && (pyStripS ddg == "")) := by
  rw [research_company_def]
  split <;> rfl

/-- C6: for every entity name and every combination of source summary
texts, `has_conflict` is true iff `extracted_years` has at least two
(distinct — the list is strictly sorted) members, on the regular path
and on the synthetic-fallback path alike. -/
theorem claim_C6 (company_name wiki ddg : String) :
    ((research_company company_name wiki ddg).has_conflict = true ↔
      2 ≤ (research_company company_name wiki ddg).extracted_years.length) ∧
    List.Sorted (· < ·) (research_company company_name wiki ddg).extracted_years := by
  rw [research_company_def]
  split
  case _ kv hfb =>
    have hkv : kv ∈ synthetic_conflicts := by
      by_cases hc : ((pyStripS wiki == "") && (pyStripS ddg == "")) = true
      · rw [if_pos hc] at hfb
        exact List.mem_of_find?_eq_some hfb
      · rw [if_neg hc] at hfb
        exact absurd hfb (by simp)
    have htab : ∀ kv ∈ synthetic_conflicts,
        2 ≤ kv.snd.length ∧ List.Sorted (· < ·) kv.snd := by decide
    obtain ⟨hlen, hsort⟩ := htab kv hkv
    exact ⟨iff_of_true rfl hlen, hsort⟩
  case _ hfb =>
    constructor
    · simp only [decide_eq_true_eq]
      omega
    · exact sorted_sortDedup _

theorem claim_C6_witness :
    ((research_company "IBM" "" "").has_conflict = true ↔
      2 ≤ (research_company "IBM" "" "").extracted_years.length) ∧
    List.Sorted (· < ·) (research_company "IBM" "" "").extracted_years :=
  claim_C6 "IBM" "" ""

/-- C7 as stated is false on the code: with the allowlisted name `IBM`,
a whitespace-only (hence non-empty) Wikipedia summary and an empty
DuckDuckGo summary, the summaries contribute no years at all, yet the
synthetic fallback table overwrites `extracted_years`. -/
theorem claim_C7_counterexample :
    (" " : String) ≠ "" ∧
    extract_years (some " ") ++ extract_years (some "") = [] ∧
    (research_company "IBM" " " "").extracted_years = [1896, 1911, 1924] ∧
    (research_company "IBM" " " "").extracted_years ≠
      sortDedup (extract_years (some " ") ++ extract_years (some "")) := by
  refine ⟨by decide, by decide, by decide, by decide⟩

/-- C7, amended: if at least one source summary is non-empty after
stripping whitespace, then `extracted_years` is exactly the merged,
sorted, deduplicated union of the years extracted from the two
summaries; the synthetic fallback table never overwrites it. -/
theorem claim_C7 (company_name wiki ddg : String)
    (h : pyStripS wiki ≠ "" ∨ pyStripS ddg ≠ "") :
    (research_company company_name wiki ddg).extracted_years
        = sortDedup (extract_years (some wiki) ++ extract_years (some ddg)) ∧
    ∀ y, y ∈ (research_company company_name wiki ddg).extracted_years ↔
      (y ∈ extract_years (some wiki) ∨ y ∈ extract_years (some ddg)) := by
  have hcond : ((pyStripS wiki == "") && (pyStripS ddg == "")) = false := by
    rcases h with h | h <;> simp [h]
  rw [research_company_def, hcond]
  refine ⟨rfl, fun y => ?_⟩
  show y ∈ sortDedup (extract_years (some wiki) ++ extract_years (some ddg)) ↔ _
  rw [mem_sortDedup, List.mem_append]

theorem claim_C7_witness :
    (research_company "IBM" "Founded in 1911." "").extracted_years
      = sortDedup (extract_years (some "Founded in 1911.") ++ extract_years (some "")) :=
  (claim_C7 "IBM" "Founded in 1911." "" (Or.inl (by decide))).1

/-- C8 as stated is false on the code: a whitespace-only summary is a
non-empty string, yet `no_external_data` is computed from the stripped
summaries and comes out true. -/
theorem claim_C8_counterexample :
    (research_company "Globex" " " "").no_external_data = true ∧ (" " : String) ≠ "" := by
  refine ⟨by decide, by decide⟩

/-- C8, amended: `no_external_data` is true iff every source summary is
empty after stripping whitespace (i.e. empty or whitespace-only). -/
theorem claim_C8 (company_name wiki ddg : String) :
    (research_company company_name wiki ddg).no_external_data = true ↔
      (pyStripS wiki = "" ∧ pyStripS ddg = "") := by
  rw [research_company_no_external]
  simp

theorem claim_C8_witness :
    (research_company "Globex" "" "\t ").no_external_data = true ↔
      (pyStripS "" = "" ∧ pyStripS "\t " = "") :=
  claim_C8 "Globex" "" "\t "

/-! ## The section editor: matcher bounds and the frame property -/

theorem isPrefixOf_append_self (l t : List Char) : List.isPrefixOf l (l ++ t) = true := by
  induction l with
  | nil => cases t <;> rfl
  | cons c cs ih => simp [List.isPrefixOf, ih]

theorem wsStarNl_le (l : List Char) :
    ∀ m, wsStarNl l = some m → 1 ≤ m ∧ m ≤ l.length := by
  induction l with
  | nil =>
    intro m hm
    exact absurd hm (by simp [wsStarNl])
  | cons c cs ih =>
    intro m hm
    simp only [wsStarNl] at hm
    by_cases hc : isPySpace c = true
    · rw [if_pos hc] at hm
      cases hw : wsStarNl cs with
      | some n =>
        rw [hw] at hm
        cases hm
        have := ih n hw
        simp only [List.length_cons]
        omega
      | none =>
        rw [hw] at hm
        by_cases hnl : (c == '\n') = true
        · rw [if_pos hnl] at hm
          cases hm
          simp
        · rw [if_neg hnl] at hm
          exact absurd hm (by simp)
    · rw [if_neg hc] at hm
      exact absurd hm (by simp)

theorem g1TryK_le (name rest : List Char) :
    ∀ (k n : Nat), g1TryK name rest k = some n → n ≤ rest.length := by
  intro k
  induction k with
  | zero =>
    intro n hn
    exact absurd hn (by simp [g1TryK])
  | succ k ih =>
    intro n hn
    simp only [g1TryK] at hn
    by_cases hpre : List.isPrefixOf name (rest.drop (k + 1)) = true
    · rw [if_pos hpre] at hn
      cases hw : wsStarNl ((rest.drop (k + 1)).drop name.length) with
      | some m =>
        rw [hw] at hn
        simp only [Option.map_some'] at hn
        cases hn
        have hm := wsStarNl_le _ m hw
        have hnam : name.length ≤ (rest.drop (k + 1)).length :=
          (List.isPrefixOf_iff_prefix.mp hpre).length_le
        simp only [List.length_drop] at hm hnam
        omega
      | none =>
        rw [hw] at hn
        simp only [Option.map_none'] at hn
        exact ih n hn
    · rw [if_neg hpre] at hn
      exact ih n hn

theorem matchGroup1_le (name l : List Char) (g1 : Nat)
    (h : matchGroup1 name l = some g1) : g1 ≤ l.length := by
  cases l with
  | nil => exact absurd h (by simp [matchGroup1])
  | cons a l1 =>
    cases l1 with
    | nil => exact absurd h (by simp [matchGroup1])
    | cons b rest =>
      simp only [matchGroup1] at h
      by_cases hab : (a == '#' && b == '#') = true
      · rw [if_pos hab] at h
        cases hg : g1TryK name rest (wsRun rest) with
        | some n =>
          rw [hg] at h
          simp only [Option.map_some'] at h
          cases h
          have := g1TryK_le name rest _ n hg
          simp only [List.length_cons]
          omega
        | none =>
          rw [hg] at h
          exact absurd h (by simp)
      · rw [if_neg hab] at h
        exact absurd h (by simp)

theorem findG1_bound (name : List Char) :
    ∀ (l : List Char) (p0 p g1 : Nat), findG1 name l p0 = some (p, g1) →
      ∃ q, p = p0 + q ∧ q + g1 ≤ l.length := by
  intro l
  induction l with
  | nil =>
    intro p0 p g1 h
    exact absurd h (by simp [findG1])
  | cons c cs ih =>
    intro p0 p g1 h
    simp only [findG1] at h
    cases hm : matchGroup1 name (c :: cs) with
    | some g1' =>
      rw [hm] at h
      have hinj := Option.some.inj h
      have hp : p0 = p := congrArg Prod.fst hinj
      have hg : g1' = g1 := congrArg Prod.snd hinj
      have hle := matchGroup1_le name (c :: cs) g1' hm
      refine ⟨0, by omega, ?_⟩
      simp only [List.length_cons] at hle ⊢
      omega
    | none =>
      rw [hm] at h
      obtain ⟨q, hq1, hq2⟩ := ih (p0 + 1) p g1 h
      refine ⟨q + 1, by omega, ?_⟩
      simp only [List.length_cons]
      omega

theorem findMatch_some (doc name : List Char) (p g1 g2 : Nat)
    (h : findMatch doc name = some (p, g1, g2)) :
    findG1 name doc 0 = some (p, g1) ∧ p + g1 ≤ doc.length ∧ doc ≠ [] := by
  unfold findMatch at h
  cases hf : findG1 name doc 0 with
  | none =>
    rw [hf] at h
    exact absurd h (by simp)
  | some pg =>
    obtain ⟨p', g1'⟩ := pg
    rw [hf] at h
    simp only [Option.some.injEq, Prod.mk.injEq] at h
    obtain ⟨hp, hg, _⟩ := h
    have hne : doc ≠ [] := by
      intro hd
      rw [hd] at hf
      exact absurd hf (by simp [findG1])
    obtain ⟨q, hq1, hq2⟩ := findG1_bound name doc 0 p' g1' hf
    refine ⟨by rw [hp, hg], by omega, hne⟩

/-- C4: when the pattern matches, the editor replaces exactly the body
span of the located section: everything strictly before the span and
everything after it (in particular the heading line of the matched
section, all earlier text and all later sections) is byte-identical in
the output. -/
theorem claim_C4 (doc name body : List Char) (p g1 g2 : Nat)
    (h : findMatch doc name = some (p, g1, g2)) :
    updateL doc name body
        = doc.take (p + g1) ++ '\n' :: (pyStrip body ++ '\n' :: doc.drop (p + g1 + g2)) ∧
      (updateL doc name body).take (p + g1) = doc.take (p + g1) ∧
      List.IsSuffix (doc.drop (p + g1 + g2)) (updateL doc name body) := by
  obtain ⟨hf, hle, hne⟩ := findMatch_some doc name p g1 g2 h
  have heq : updateL doc name body
      = doc.take (p + g1) ++ '\n' :: (pyStrip body ++ '\n' :: doc.drop (p + g1 + g2)) := by
    unfold updateL
    rw [if_neg hne, h]
  refine ⟨heq, ?_, ?_⟩
  · rw [heq]
    have hlen : (doc.take (p + g1)).length = p + g1 := by
      rw [List.length_take]
      omega
    exact List.take_left' hlen
  · rw [heq]
    exact ⟨doc.take (p + g1) ++ '\n' :: (pyStrip body ++ ['\n']), by simp⟩

theorem claim_C4_witness :
    updateL ("## Overview\nOld text\n## Risks\nOld risk\n").data ("Risks").data
          ("New risk text").data
        = ("## Overview\nOld text\n## Risks\nOld risk\n").data.take (21 + 9) ++
            '\n' :: (pyStrip ("New risk text").data ++
              '\n' :: ("## Overview\nOld text\n## Risks\nOld risk\n").data.drop (21 + 9 + 9)) ∧
      (updateL ("## Overview\nOld text\n## Risks\nOld risk\n").data ("Risks").data
            ("New risk text").data).take (21 + 9)
          = ("## Overview\nOld text\n## Risks\nOld risk\n").data.take (21 + 9) ∧
      List.IsSuffix (("## Overview\nOld text\n## Risks\nOld risk\n").data.drop (21 + 9 + 9))
        (updateL ("## Overview\nOld text\n## Risks\nOld risk\n").data ("Risks").data
          ("New risk text").data) :=
  claim_C4 _ _ _ 21 9 9 (by decide)

/-! ## The section editor: duplicate headings (leftmost match) -/

theorem wsRun_cons (c : Char) (cs : List Char) :
    wsRun (c :: cs) = if isPySpace c then wsRun cs + 1 else 0 := rfl

theorem wsStarNl_cons (c : Char) (cs : List Char) :
    wsStarNl (c :: cs)
      = if isPySpace c then
          (match wsStarNl cs with
           | some n => some (n + 1)
           | Option.none => if c == '\n' then some 1 else none)
        else none := rfl

theorem wsStarNl_nl_stop (x0 : Char) (xs : List Char) (hx0 : isPySpace x0 = false) :
    wsStarNl ('\n' :: x0 :: xs) = some 1 := by
  have h1 : wsStarNl (x0 :: xs) = none := by
    rw [wsStarNl_cons, if_neg (by simp [hx0])]
  rw [wsStarNl_cons, if_pos (by decide), h1]
  rfl

theorem matchGroup1_heading (n0 x0 : Char) (ns xs : List Char)
    (hn0 : isPySpace n0 = false) (hx0 : isPySpace x0 = false) :
    matchGroup1 (n0 :: ns) ('#' :: '#' :: ' ' :: ((n0 :: ns) ++ '\n' :: x0 :: xs))
      = some ((n0 :: ns).length + 4) := by
  have hrun : wsRun (' ' :: ((n0 :: ns) ++ '\n' :: x0 :: xs)) = 1 := by
    rw [wsRun_cons, if_pos (by decide)]
    rw [show ((n0 :: ns) ++ '\n' :: x0 :: xs) = n0 :: (ns ++ '\n' :: x0 :: xs) from rfl]
    rw [wsRun_cons, if_neg (by rw [hn0]; exact Bool.false_ne_true)]
  have hdrop1 : (' ' :: ((n0 :: ns) ++ '\n' :: x0 :: xs)).drop 1
      = (n0 :: ns) ++ '\n' :: x0 :: xs := rfl
  have hdropn : (((n0 :: ns) ++ '\n' :: x0 :: xs)).drop (n0 :: ns).length
      = '\n' :: x0 :: xs := List.drop_left _ _
  simp only [matchGroup1]
  rw [if_pos (by decide)]
  rw [hrun]
  simp only [g1TryK, hdrop1, isPrefixOf_append_self, if_pos, hdropn,
    wsStarNl_nl_stop x0 xs hx0, Option.map_some']
  simp only [Option.some.injEq]
  omega

theorem findG1_cons (name : List Char) (a : Char) (cs : List Char) (p : Nat) :
    findG1 name (a :: cs) p
      = match matchGroup1 name (a :: cs) with
        | some g1 => some (p, g1)
        | none => findG1 name cs (p + 1) := rfl

theorem g2Len_no_hash (c : Char) (hc : isPySpace c = true) (tail : List Char) :
    ∀ (b1 : List Char), '#' ∉ b1 →
      g2Len (b1 ++ '\n' :: '#' :: '#' :: c :: tail) = b1.length := by
  intro b1
  induction b1 with
  | nil =>
    intro _
    show g2Len ('\n' :: '#' :: '#' :: c :: tail) = 0
    simp [g2Len, lookaheadHere, hc]
  | cons c0 cs ih =>
    intro hmem
    have hc0 : c0 ∉ cs → True := fun _ => trivial
    have hnot : '#' ∉ cs := fun hx => hmem (List.mem_cons_of_mem c0 hx)
    show g2Len (c0 :: (cs ++ '\n' :: '#' :: '#' :: c :: tail)) = cs.length + 1
    have hla : lookaheadHere (c0 :: (cs ++ '\n' :: '#' :: '#' :: c :: tail)) = false := by
      cases hcs : cs with
      | nil =>
        simp [lookaheadHere]
      | cons d cs' =>
        have hd : d ≠ '#' := by
          intro hdd
          exact hmem (by rw [hcs, hdd]; exact List.mem_cons_of_mem c0 (List.mem_cons_self _ _))
        simp [lookaheadHere, hd]
    simp only [g2Len, hla, if_false]
    rw [ih hnot]
    simp

/-- C10: in a document with two identically named level-2 sections, the
editor rewrites only the body of the first one; the second section —
its heading line and its body — is byte-identical in the output (the
side conditions keep the embedded regex match aligned with the first
heading: the name and the first body start with non-whitespace, and the
first body contains no hash). -/
theorem claim_C10 (n0 b1h : Char) (ns b1t b2 nb : List Char)
    (hn0 : isPySpace n0 = false) (hb1 : isPySpace b1h = false) (hb : '#' ∉ b1h :: b1t) :
    updateL
        (headingLine (n0 :: ns) ++ ((b1h :: b1t) ++ '\n' :: (headingLine (n0 :: ns) ++ b2)))
        (n0 :: ns) nb
      = headingLine (n0 :: ns) ++
          '\n' :: (pyStrip nb ++ '\n' :: '\n' :: (headingLine (n0 :: ns) ++ b2)) := by
  have hlen : (headingLine (n0 :: ns)).length = (n0 :: ns).length + 4 := by
    simp [headingLine]
  have hdoc :
      headingLine (n0 :: ns) ++ ((b1h :: b1t) ++ '\n' :: (headingLine (n0 :: ns) ++ b2))
        = '#' :: '#' :: ' ' ::
            ((n0 :: ns) ++ '\n' :: b1h :: (b1t ++ '\n' :: (headingLine (n0 :: ns) ++ b2))) := by
    simp [headingLine, List.append_assoc]
  have hm1 := matchGroup1_heading n0 b1h ns (b1t ++ '\n' :: (headingLine (n0 :: ns) ++ b2))
    hn0 hb1
  have hfind :
      findG1 (n0 :: ns)
          (headingLine (n0 :: ns) ++ ((b1h :: b1t) ++ '\n' :: (headingLine (n0 :: ns) ++ b2))) 0
        = some (0, (n0 :: ns).length + 4) := by
    rw [hdoc, findG1_cons, hm1]
  have hdrop :
      (headingLine (n0 :: ns) ++ ((b1h :: b1t) ++ '\n' ::
          (headingLine (n0 :: ns) ++ b2))).drop ((n0 :: ns).length + 4)
        = (b1h :: b1t) ++ '\n' :: (headingLine (n0 :: ns) ++ b2) := by
    rw [← hlen]
    exact List.drop_left _ _
  have hY :
      (b1h :: b1t) ++ '\n' :: (headingLine (n0 :: ns) ++ b2)
        = (b1h :: b1t) ++ '\n' :: '#' :: '#' :: ' ' :: ((n0 :: ns) ++ '\n' :: b2) := by
    simp [headingLine, List.append_assoc]
  have hg2 :
      g2Len ((b1h :: b1t) ++ '\n' :: (headingLine (n0 :: ns) ++ b2))
        = (b1h :: b1t).length := by
    rw [hY]
    exact g2Len_no_hash ' ' (by decide) ((n0 :: ns) ++ '\n' :: b2) (b1h :: b1t) hb
  have hfm :
      findMatch
          (headingLine (n0 :: ns) ++ ((b1h :: b1t) ++ '\n' :: (headingLine (n0 :: ns) ++ b2)))
          (n0 :: ns)
        = some (0, (n0 :: ns).length + 4, (b1h :: b1t).length) := by
    unfold findMatch
    rw [hfind]
    simp only [Nat.zero_add]
    rw [hdrop, hg2]
  have hne :
      headingLine (n0 :: ns) ++ ((b1h :: b1t) ++ '\n' :: (headingLine (n0 :: ns) ++ b2))
        ≠ [] := by
    rw [hdoc]
    simp
  have htake :
      (headingLine (n0 :: ns) ++ ((b1h :: b1t) ++ '\n' ::
          (headingLine (n0 :: ns) ++ b2))).take ((n0 :: ns).length + 4)
        = headingLine (n0 :: ns) :=
    List.take_left' hlen
  have hassoc :
      headingLine (n0 :: ns) ++ ((b1h :: b1t) ++ '\n' :: (headingLine (n0 :: ns) ++ b2))
        = (headingLine (n0 :: ns) ++ (b1h :: b1t)) ++ '\n' :: (headingLine (n0 :: ns) ++ b2) :=
    (List.append_assoc _ _ _).symm
  have hdrop2 :
      (headingLine (n0 :: ns) ++ ((b1h :: b1t) ++ '\n' ::
          (headingLine (n0 :: ns) ++ b2))).drop ((n0 :: ns).length + 4 + (b1h :: b1t).length)
        = '\n' :: (headingLine (n0 :: ns) ++ b2) := by
    rw [hassoc]
    refine List.drop_left' ?_
    rw [List.length_append, hlen]
  unfold updateL
  rw [if_neg hne, hfm]
  simp only [Nat.zero_add]
  rw [htake, hdrop2]

theorem claim_C10_witness :
    updateL
        (headingLine ('X' :: []) ++
          (('a' :: []) ++ '\n' :: (headingLine ('X' :: []) ++ ('b' :: []))))
        ('X' :: []) ('c' :: [])
      = headingLine ('X' :: []) ++
          '\n' :: (pyStrip ('c' :: []) ++ '\n' :: '\n' :: (headingLine ('X' :: []) ++ ('b' :: []))) :=
  claim_C10 'X' 'a' [] [] ('b' :: []) ('c' :: []) (by decide) (by decide) (by decide)

/-- C1 fails on the code: replacing the body of `Risks` inserts a blank
line between the heading line and the new body (the replacement is
`"\n" + body.strip() + "\n"`), so the output is not the one the
specification's scenario predicts. -/
theorem claim_C1 :
    update_markdown_section "## Overview\nOld text\n## Risks\nOld risk\n" "Risks" "New risk text"
        = "## Overview\nOld text\n## Risks\n\nNew risk text\n" ∧
      ("## Overview\nOld text\n## Risks\n\nNew risk text\n" : String)
        ≠ "## Overview\nOld text\n## Risks\nNew risk text\n" := by
  refine ⟨by decide, by decide⟩

/-- C2 fails on the code: the editor is not idempotent.  The replacement
writes heading, blank line, body; on the next call the pattern's `\s*\n`
also consumes the blank line and the code prepends yet another `"\n"`,
so every repetition grows the document by one newline and it never
stabilizes. -/
theorem claim_C2 :
    update_markdown_section "## X\nbody\n" "X" "body" = "## X\n\nbody\n" ∧
    update_markdown_section (update_markdown_section "## X\nbody\n" "X" "body") "X" "body"
        = "## X\n\n\nbody\n" ∧
    update_markdown_section (update_markdown_section "## X\nbody\n" "X" "body") "X" "body"
        ≠ update_markdown_section "## X\nbody\n" "X" "body" := by
  refine ⟨by decide, by decide, by decide⟩

/-- C3 fails as stated: besides the conditional final newline, the
append path always inserts one extra blank line before the new heading
(the appended text is `"\n## name\n..."`). -/
theorem claim_C3_counterexample :
    update_markdown_section "Intro text\n" "Risks" "body" = "Intro text\n\n## Risks\nbody\n" ∧
    ("Intro text\n\n## Risks\nbody\n" : String) ≠ "Intro text\n## Risks\nbody\n" := by
  refine ⟨by decide, by decide⟩

/-- C3, amended: when the pattern does not match in a non-empty
document, the editor appends a newline exactly when the document does
not already end with one, then a blank separator line, then the new
heading line, the trimmed body and a trailing newline. -/
theorem claim_C3 (doc name body : List Char) (h1 : doc ≠ []) (h2 : findMatch doc name = none) :
    updateL doc name body
      = (if doc.getLast? = some '\n' then doc else doc ++ ['\n']) ++
          '\n' :: (headingLine name ++ (pyStrip body ++ ['\n'])) := by
  unfold updateL
  rw [if_neg h1, h2]

theorem claim_C3_witness :
    updateL ("Intro text\n").data ("Risks").data ("body").data
      = (if ("Intro text\n").data.getLast? = some '\n' then ("Intro text\n").data
         else ("Intro text\n").data ++ ['\n']) ++
          '\n' :: (headingLine ("Risks").data ++ (pyStrip ("body").data ++ ['\n'])) :=
  claim_C3 ("Intro text\n").data ("Risks").data ("body").data (by decide) (by decide)

/-- C5: year extraction returns exactly the distinct whole-token years
(four digits opening with `19` or `20`, hence in 1900-2099, delimited by
word boundaries) of the text, strictly sorted ascending; `"12024"` and
`"20999"` yield nothing, empty or `None` input yields the empty list,
and the `Founded ...` example yields exactly `[1975, 1998]`. -/
theorem claim_C5 :
    extract_years none = [] ∧ extract_years (some "") = [] ∧
    extract_years (some "12024") = [] ∧ extract_years (some "20999") = [] ∧
    extract_years (some "Founded in 1975 and reorganized in 1998 and 1975") = [1975, 1998] ∧
    ∀ t : String,
      List.Sorted (· < ·) (extract_years (some t)) ∧
      (∀ y, y ∈ extract_years (some t) ↔ ∃ p, okAt p none t.data = some y) ∧
      (∀ y, y ∈ extract_years (some t) → 1900 ≤ y ∧ y ≤ 2099) := by
  refine ⟨by decide, by decide, by decide, by decide, by decide, fun t => ⟨?_, ?_, ?_⟩⟩
  · exact sorted_sortDedup _
  · exact fun y => mem_extract_years t y
  · intro y hy
    obtain ⟨p, hp⟩ := (mem_extract_years t y).mp hy
    exact okAt_bounds p none t.data y hp

theorem claim_C5_witness :
    1975 ∈ extract_years (some "Founded in 1975") ∧ (1900 ≤ 1975 ∧ 1975 ≤ 2099) :=
  ⟨by decide, (claim_C5.2.2.2.2.2 "Founded in 1975").2.2 1975 (by decide)⟩

/-! ## Fail-soft fetches and totality of the composed research call -/

theorem pyOr_default_str (v : PyVal) (h : strOrFalsy v = true) :
    ∃ s, pyOr v (.pyStr "") = .pyStr s := by
  by_cases ht : truthy v = true
  · cases v with
    | pyStr s =>
      refine ⟨s, ?_⟩
      unfold pyOr
      rw [if_pos ht]
    | pyNone => simp [truthy] at ht
    | pyBool b =>
      simp only [truthy] at ht
      simp [strOrFalsy, truthy, ht] at h
    | pyNum n =>
      simp only [strOrFalsy, truthy] at h
      simp only [truthy] at ht
      rw [ht] at h
      exact absurd h (by simp)
    | pyList xs =>
      simp only [strOrFalsy, truthy] at h
      simp only [truthy] at ht
      rw [ht] at h
      exact absurd h (by simp)
    | pyDict kvs =>
      simp only [strOrFalsy, truthy] at h
      simp only [truthy] at ht
      rw [ht] at h
      exact absurd h (by simp)
  · refine ⟨"", ?_⟩
    unfold pyOr
    rw [if_neg ht]

theorem truthy_strOrFalsy_str (v : PyVal) (h1 : strOrFalsy v = true) (h2 : truthy v = true) :
    ∃ s, v = .pyStr s := by
  cases v with
  | pyStr s => exact ⟨s, rfl⟩
  | pyNone => simp [truthy] at h2
  | pyBool b =>
    simp only [truthy] at h2
    simp [strOrFalsy, truthy, h2] at h1
  | pyNum n =>
    simp only [strOrFalsy, truthy] at h1
    simp only [truthy] at h2
    rw [h2] at h1
    exact absurd h1 (by simp)
  | pyList xs =>
    simp only [strOrFalsy, truthy] at h1
    simp only [truthy] at h2
    rw [h2] at h1
    exact absurd h1 (by simp)
  | pyDict kvs =>
    simp only [strOrFalsy, truthy] at h1
    simp only [truthy] at h2
    rw [h2] at h1
    exact absurd h1 (by simp)

theorem fetchWiki_str (o : HttpOutcome) (h : wikiOk o = true) :
    ∃ s, fetch_wikipedia_summary o = PyVal.pyStr s ∧ (sourceFailed o = true → s = "") := by
  cases o with
  | exn => exact ⟨"", rfl, fun _ => rfl⟩
  | resp status body =>
    by_cases hs : status = 200
    · subst hs
      cases body with
      | none => exact ⟨"", rfl, fun _ => rfl⟩
      | some v =>
        have hsf : sourceFailed (HttpOutcome.resp 200 (some v)) = false := by
          simp [sourceFailed]
        cases v with
        | pyNone => exact ⟨"", rfl, fun _ => rfl⟩
        | pyBool b => exact ⟨"", rfl, fun _ => rfl⟩
        | pyNum n => exact ⟨"", rfl, fun _ => rfl⟩
        | pyStr s => exact ⟨"", rfl, fun _ => rfl⟩
        | pyList xs => exact ⟨"", rfl, fun _ => rfl⟩
        | pyDict kvs =>
          have hok : strOrFalsy (dictLookup kvs "extract" (.pyStr "")) = true := by
            simpa [wikiOk] using h
          obtain ⟨s, hst⟩ := pyOr_default_str _ hok
          have hfe : fetch_wikipedia_summary (.resp 200 (some (.pyDict kvs)))
              = pyOr (dictLookup kvs "extract" (.pyStr "")) (.pyStr "") := rfl
          refine ⟨s, by rw [hfe, hst], fun hf => ?_⟩
          rw [hsf] at hf
          exact absurd hf (by simp)
    · have hcore : fetchWikiCore (.resp status body) = .ok (.pyStr "") := by
        simp only [fetchWikiCore]
        rw [if_neg hs]
      refine ⟨"", ?_, fun _ => rfl⟩
      unfold fetch_wikipedia_summary
      rw [hcore]

theorem fetchDdg_str (o : HttpOutcome) (h : ddgOk o = true) :
    ∃ s, fetch_duckduckgo_summary o = PyVal.pyStr s ∧ (sourceFailed o = true → s = "") := by
  cases o with
  | exn => exact ⟨"", rfl, fun _ => rfl⟩
  | resp status body =>
    by_cases hs : status = 200
    · subst hs
      cases body with
      | none => exact ⟨"", rfl, fun _ => rfl⟩
      | some v =>
        have hsf : sourceFailed (HttpOutcome.resp 200 (some v)) = false := by
          simp [sourceFailed]
        cases v with
        | pyNone => exact ⟨"", rfl, fun _ => rfl⟩
        | pyBool b => exact ⟨"", rfl, fun _ => rfl⟩
        | pyNum n => exact ⟨"", rfl, fun _ => rfl⟩
        | pyStr s => exact ⟨"", rfl, fun _ => rfl⟩
        | pyList xs => exact ⟨"", rfl, fun _ => rfl⟩
        | pyDict kvs =>
          have hcore : fetchDdgCore (.resp 200 (some (.pyDict kvs)))
              = (if truthy (dictLookup kvs "Abstract" (.pyStr "")) then
                  Except.ok (dictLookup kvs "Abstract" (.pyStr ""))
                else
                  match dictLookup kvs "RelatedTopics" (.pyList []) with
                  | .pyList (first :: _) =>
                    match first with
                    | .pyDict kvs2 =>
                      Except.ok (pyOr (dictLookup kvs2 "Text" (.pyStr "")) (.pyStr ""))
                    | _ => Except.ok (.pyStr "")
                  | _ => Except.ok (.pyStr "")) := rfl
          by_cases ha : truthy (dictLookup kvs "Abstract" (.pyStr "")) = true
          · have hok : strOrFalsy (dictLookup kvs "Abstract" (.pyStr "")) = true := by
              simpa [ddgOk, ha] using h
            obtain ⟨s, hst⟩ := truthy_strOrFalsy_str _ hok ha
            refine ⟨s, ?_, fun hf => ?_⟩
            · unfold fetch_duckduckgo_summary
              rw [hcore, if_pos ha, hst]
            · rw [hsf] at hf
              exact absurd hf (by simp)
          · cases hr : dictLookup kvs "RelatedTopics" (.pyList []) with
            | pyList xs =>
              cases xs with
              | nil =>
                refine ⟨"", ?_, fun _ => rfl⟩
                unfold fetch_duckduckgo_summary
                rw [hcore, if_neg ha, hr]
              | cons first rest =>
                cases first with
                | pyDict kvs2 =>
                  have hok2 : strOrFalsy (dictLookup kvs2 "Text" (.pyStr "")) = true := by
                    simpa [ddgOk, ha, hr] using h
                  obtain ⟨s, hst⟩ := pyOr_default_str _ hok2
                  refine ⟨s, ?_, fun hf => ?_⟩
                  · unfold fetch_duckduckgo_summary
                    rw [hcore, if_neg ha, hr]
                    exact hst
                  · rw [hsf] at hf
                    exact absurd hf (by simp)
                | pyNone =>
                  refine ⟨"", ?_, fun _ => rfl⟩
                  unfold fetch_duckduckgo_summary
                  rw [hcore, if_neg ha, hr]
                | pyBool b =>
                  refine ⟨"", ?_, fun _ => rfl⟩
                  unfold fetch_duckduckgo_summary
                  rw [hcore, if_neg ha, hr]
                | pyNum n =>
                  refine ⟨"", ?_, fun _ => rfl⟩
                  unfold fetch_duckduckgo_summary
                  rw [hcore, if_neg ha, hr]
                | pyStr s2 =>
                  refine ⟨"", ?_, fun _ => rfl⟩
                  unfold fetch_duckduckgo_summary
                  rw [hcore, if_neg ha, hr]
                | pyList ys =>
                  refine ⟨"", ?_, fun _ => rfl⟩
                  unfold fetch_duckduckgo_summary
                  rw [hcore, if_neg ha, hr]
            | pyNone =>
              refine ⟨"", ?_, fun _ => rfl⟩
              unfold fetch_duckduckgo_summary
              rw [hcore, if_neg ha, hr]
            | pyBool b =>
              refine ⟨"", ?_, fun _ => rfl⟩
              unfold fetch_duckduckgo_summary
              rw [hcore, if_neg ha, hr]
            | pyNum n =>
              refine ⟨"", ?_, fun _ => rfl⟩
              unfold fetch_duckduckgo_summary
              rw [hcore, if_neg ha, hr]
            | pyStr s2 =>
              refine ⟨"", ?_, fun _ => rfl⟩
              unfold fetch_duckduckgo_summary
              rw [hcore, if_neg ha, hr]
            | pyDict kvs2 =>
              refine ⟨"", ?_, fun _ => rfl⟩
              unfold fetch_duckduckgo_summary
              rw [hcore, if_neg ha, hr]
    · have hcore : fetchDdgCore (.resp status body) = .ok (.pyStr "") := by
        simp only [fetchDdgCore]
        rw [if_neg hs]
      refine ⟨"", ?_, fun _ => rfl⟩
      unfold fetch_duckduckgo_summary
      rw [hcore]

theorem research_company_company (company_name wiki ddg : String) :
    (research_company company_name wiki ddg).company = company_name := by
  rw [research_company_def]
  split <;> rfl

/-- C9 fails as stated: a 200 response whose JSON object carries a
truthy non-string `"extract"` value escapes the fetch helper's
`try/except` as a non-string, and the later string operations of
`research_company` raise a `TypeError`. -/
theorem claim_C9_counterexample :
    research_companyE "ACME" (.resp 200 (some (.pyDict [("extract", .pyNum 42)])))
        (.resp 404 Option.none)
      = .error .typeError := rfl

/-- C9, amended: for every entity name and every behavior of the two
sources — transport error, any status code, unparseable body, or any
JSON body whose consulted fields are strings or falsy — the composed
research call raises nothing and returns a complete `ResearchResult`,
and every failed source (transport error, non-success status, or
non-JSON body) contributes the empty string. -/
theorem claim_C9 (company_name : String) (o1 o2 : HttpOutcome)
    (h1 : wikiOk o1 = true) (h2 : ddgOk o2 = true) :
    ∃ r : ResearchResult, research_companyE company_name o1 o2 = .ok r ∧
      r.company = company_name ∧
      (sourceFailed o1 = true → r.wikipedia_summary = "") ∧
      (sourceFailed o2 = true → r.duckduckgo_summary = "") := by
  obtain ⟨w, hw, hwf⟩ := fetchWiki_str o1 h1
  obtain ⟨d, hd, hdf⟩ := fetchDdg_str o2 h2
  refine ⟨research_company company_name w d, ?_, ?_, ?_, ?_⟩
  · unfold research_companyE
    rw [hw, hd]
    rfl
  · exact research_company_company company_name w d
  · intro hf
    rw [research_company_wiki]
    exact hwf hf
  · intro hf
    rw [research_company_ddg]
    exact hdf hf

theorem claim_C9_witness :
    ∃ r : ResearchResult,
      research_companyE "ACME" (.resp 200 (some (.pyDict [("extract", .pyStr "Founded 1911")])))
          HttpOutcome.exn = .ok r ∧
      r.company = "ACME" ∧
      (sourceFailed (.resp 200 (some (.pyDict [("extract", .pyStr "Founded 1911")]))) = true →
        r.wikipedia_summary = "") ∧
      (sourceFailed HttpOutcome.exn = true → r.duckduckgo_summary = "") :=
  claim_C9 "ACME" (.resp 200 (some (.pyDict [("extract", .pyStr "Founded 1911")])))
    HttpOutcome.exn (by decide) (by decide)
